import Mathlib

/-!
Verification of `coax/td_learning/_clippeddoubleqlearning.py` (class `ClippedDoubleQLearning`).

The numerical code is embedded over `ℚ`.  Batched `jax` arrays become `List ℚ`
(one entry per batch row); a (batch × actions) matrix becomes, per row, a `List ℚ`
of per-action values.  Every collaborator call is modelled row-wise, which is the
batching contract the source asserts (`assert Q_sa_next.ndim == 1`).

A target q-function (an element of `q_targ_list`, zipped with its parameter and
function-state snapshot) is modelled by the two evaluation maps the source code
calls on it: `function_type2` (per-action values at a state) and `function_type1`
(value of a state/action pair, the action being a rational vector: a probability
vector over discrete actions, or a continuous action vector).  A target policy is
modelled by the composite `mode ∘ function` the source calls on it.  Random-key
threading (`hk.PRNGSequence`) only distributes sub-seeds to collaborators; the
collaborators are modelled as deterministic functions of state and action, so the
seeds carry no information and are dropped from the embedding.
-/

/-- A value transform: the pair `(transform_func, inverse_func)` of mutually inverse
scalar maps, applied point-free to whole batch rows. -/
structure ValueTransform where
  f : ℚ → ℚ
  f_inv : ℚ → ℚ

/-- The identity value transform (the default when none is supplied). -/
def idTransform : ValueTransform := ⟨id, id⟩

/-- A target q-function together with its parameter/state snapshot, reduced to the two
evaluation maps `target_func` uses: `type2 s` is `function_type1`-free per-action
evaluation (`function_type2` at one batch row `s`), `type1 s a` is `function_type1`
at one batch row `(s, a)`. -/
structure QFun (σ : Type) where
  type2 : σ → List ℚ
  type1 : σ → List ℚ → ℚ

/-- A target policy with its snapshot, reduced to the composite the source computes:
`mode s` is `pi.proba_dist.mode` of the distribution parameters returned by
`pi.function` at batch row `s` (the greedy action). -/
structure PiFun (σ : Type) where
  mode : σ → List ℚ

/-- Row maximum: `jnp.max` over one row of a per-action value matrix (`Q_s_next.max(axis=1)`). -/
def rowMax : List ℚ → ℚ
  | [] => 0
  | [x] => x
  | x :: y :: t => max x (rowMax (y :: t))

/-- Minimum of a list: `jnp.min` along the stacked axis, one scalar from the stacked per-pair
values of a single batch row. -/
def listMin : List ℚ → ℚ
  | [] => 0
  | [x] => x
  | x :: y :: t => min x (listMin (y :: t))

/-- Row-wise minimum of a list of batch vectors:
`jnp.min(jnp.stack(Q_sa_next_list, axis=-1), axis=-1)`. -/
def rowMin : List (List ℚ) → List ℚ
  | [] => []
  | [v] => v
  | v :: w :: t => List.zipWith min v (rowMin (w :: t))

/-- One row of the next-action distribution built in the discrete branch:
`A_next = (Q_s_next == Q_s_next.max(axis=1, keepdims=True)).astype(dtype)` followed by
`A_next /= A_next.sum(axis=1, keepdims=True)` (uniform over the tied maximizers). -/
def a_next_row (row : List ℚ) : List ℚ :=
  let ind := row.map (fun v => if v = rowMax row then (1 : ℚ) else 0)
  ind.map (fun x => x / ind.sum)

/-- The final line of `target_func`: `f(Rn + In * f_inv(Q_sa_next))`, row-wise over the
three aligned batch vectors. -/
def bootstrap (vt : ValueTransform) : List ℚ → List ℚ → List ℚ → List ℚ
  | r :: rs, i :: js, q :: qs => vt.f (r + i * vt.f_inv q) :: bootstrap vt rs js qs
  | _, _, _ => []

/-- The method `ClippedDoubleQLearning.target_func`.  In the discrete branch, for each selector
`q_i` the per-action values at `S_next` yield the (tie-aware) greedy action
distribution `A_next`, and every evaluator `q_j` is evaluated at `(S_next, A_next)`;
in the continuous branch `A_next` is the mode of each target policy.  The stacked
pair evaluations are reduced by a row-wise min and bootstrapped through the value
transform. -/
def target_func {σ : Type} (discrete : Bool) (q_targ_list : List (QFun σ))
    (pi_targ_list : List (PiFun σ)) (vt : ValueTransform)
    (Rn In : List ℚ) (S_next : List σ) : List ℚ :=
  let Q_sa_next_list : List (List ℚ) :=
    if discrete then
      (q_targ_list.map (fun qi =>
        let A_next := S_next.map (fun s => a_next_row (qi.type2 s))
        q_targ_list.map (fun qj => List.zipWith qj.type1 S_next A_next))).flatten
    else
      (pi_targ_list.map (fun pii =>
        let A_next := S_next.map pii.mode
        q_targ_list.map (fun qj => List.zipWith qj.type1 S_next A_next))).flatten
  let Q_sa_next := rowMin Q_sa_next_list
  bootstrap vt Rn In Q_sa_next

/-- Modelled from the spec: the q-function capability contract lives in
`coax/_core/value_q.py`, which is not among the sources; only its interface is
described (function_type1 gives one value per row, function_type2 one value per
discrete action).  A discrete q-function is determined by its per-action table, and
`function_type1` applied to a probability vector over actions is modelled as the
probability-weighted per-action value, which reproduces the spec's end-to-end
scenario (a one-hot greedy action selects the greedy per-action value). -/
def qFromTable {σ : Type} (table : σ → List ℚ) : QFun σ :=
  { type2 := table
    type1 := fun s dist => (List.zipWith (fun a b => a * b) (table s) dist).sum }

/-- The per-row pair evaluations of the discrete branch, as the spec describes them:
for every ordered pair (selector `q_i`, evaluator `q_j`), the evaluator's value at
`S_next` and the selector's greedy-action distribution. -/
def pairEvalsDiscrete {σ : Type} (q_targ_list : List (QFun σ)) (s : σ) : List ℚ :=
  (q_targ_list.map (fun qi =>
    q_targ_list.map (fun qj => qj.type1 s (a_next_row (qi.type2 s))))).flatten

/-- The per-row pair evaluations of the continuous branch: for every pair (policy
`pi_i`, evaluator `q_j`), the evaluator's value at `S_next` and the policy's mode. -/
def pairEvalsContinuous {σ : Type} (q_targ_list : List (QFun σ))
    (pi_targ_list : List (PiFun σ)) (s : σ) : List ℚ :=
  (pi_targ_list.map (fun pii =>
    q_targ_list.map (fun qj => qj.type1 s (pii.mode s)))).flatten

/-- The spec's reduced form of the target under an identity value transform:
`Rn + In * min_over_ensemble`, row-wise. -/
def specTarget (Rn In M : List ℚ) : List ℚ :=
  match Rn, In, M with
  | r :: rs, i :: js, m :: ms => (r + i * m) :: specTarget rs js ms
  | _, _, _ => []

/-- A Python value passed as an element of one of the ensemble-list arguments, as far
as the `isinstance` checks can see it: a `coax.Policy`, a `coax.Q`, or anything else. -/
inductive PyObj
  | policy
  | qfunc
  | other
deriving DecidableEq

/-- A Python value passed as `pi_targ_list` or `q_targ_list`: `None`, a list/tuple of
objects, or some non-list value. -/
inductive PyArg
  | none
  | pyList (xs : List PyObj)
  | nonList
deriving DecidableEq

def isPolicy : PyObj → Bool
  | PyObj.policy => true
  | _ => false

def isQ : PyObj → Bool
  | PyObj.qfunc => true
  | _ => false

/-- The `pi_targ_list` half of `ClippedDoubleQLearning._check_input_lists`:
`Except.error msg` models a raised `TypeError`/`ValueError`, `Except.ok warns` a
normal return together with the warnings emitted along the way. -/
def check_pi : Bool → PyArg → Except String (List String)
  | true, PyArg.none => Except.ok []
  | true, PyArg.pyList _ =>
      Except.ok ["pi_targ_list is ignored, because action space is discrete"]
  | true, PyArg.nonList =>
      Except.ok ["pi_targ_list is ignored, because action space is discrete"]
  | false, PyArg.none =>
      Except.error ("pi_targ_list must be provided if action space is not discrete")
  | false, PyArg.nonList => Except.error ("pi_targ_list must be a list or a tuple")
  | false, PyArg.pyList xs =>
      if xs.length < 1 then Except.error ("pi_targ_list cannot be empty")
      else if xs.all isPolicy then Except.ok []
      else Except.error ("all pi_targ in pi_targ_list must be a coax.Policy")

/-- The `q_targ_list` half of `ClippedDoubleQLearning._check_input_lists`. -/
def check_q (q_targ_list : PyArg) : Except String Unit :=
  match q_targ_list with
  | PyArg.pyList xs =>
      if xs.isEmpty then Except.error ("q_targ_list cannot be empty")
      else if xs.all isQ then Except.ok ()
      else Except.error ("all q_targ in q_targ_list must be a coax.Q")
  | _ => Except.error ("q_targ_list must be a list or a tuple")

/-- The method `ClippedDoubleQLearning._check_input_lists`: the `pi_targ_list` checks run first,
then the `q_targ_list` checks, as in the source. -/
def check_input_lists (discrete : Bool) (pi_targ_list q_targ_list : PyArg) :
    Except String (List String) :=
  match check_pi discrete pi_targ_list with
  | Except.error e => Except.error e
  | Except.ok warns =>
      match check_q q_targ_list with
      | Except.error e => Except.error e
      | Except.ok _ => Except.ok warns

/-- Length of an ensemble argument once stored on the instance (`self.pi_targ_list` is
`[]` when the argument was `None`). -/
def pyLen : PyArg → ℕ
  | PyArg.pyList xs => xs.length
  | _ => 0

/-- The validation performed by `ClippedDoubleQLearning.__init__`:
`_check_input_lists` first, then the consistency check on the ensemble sizes
(`len(q_targ_list) >= 2` when the action space is discrete, otherwise
`len(q_targ_list) * len(pi_targ_list) >= 2`). -/
def init_checks (discrete : Bool) (pi_targ_list q_targ_list : PyArg) :
    Except String (List String) :=
  match check_input_lists discrete pi_targ_list q_targ_list with
  | Except.error e => Except.error e
  | Except.ok warns =>
      if discrete then
        if pyLen q_targ_list < 2 then Except.error ("len(q_targ_list) must be at least 2")
        else Except.ok warns
      else
        if pyLen q_targ_list * pyLen pi_targ_list < 2 then
          Except.error ("len(q_targ_list) times len(pi_targ_list) must be at least 2")
        else Except.ok warns

def exceptOk {ε α : Type} : Except ε α → Bool
  | Except.ok _ => true
  | Except.error _ => false

/-- A loss-function collaborator: the scalar loss `loss target prediction` together
with its partial derivative in the second argument, certified by `HasDerivAt`.  The
source obtains `dloss` from the loss by automatic differentiation
(`jax.grad(self.loss_function, argnums=1)`); the certificate is the embedding of
that capability. -/
structure LossFunction where
  loss : ℚ → ℚ → ℚ
  dloss : ℚ → ℚ → ℚ
  deriv_ok : ∀ g q, HasDerivAt (loss g) (dloss g q) q

/-- The local function `td_error_func`: recompute the target `G` via `target_func`, evaluate the online
q-function at `(S, action_preprocessor(A))`, and return `-dL_dQ(G, Q)` row-wise. -/
def td_error_func {σ : Type} (L : LossFunction) (discrete : Bool)
    (q_targ_list : List (QFun σ)) (pi_targ_list : List (PiFun σ)) (vt : ValueTransform)
    (q_online : QFun σ) (preproc : List ℚ → List ℚ)
    (S : List σ) (A : List (List ℚ)) (Rn In : List ℚ) (S_next : List σ) : List ℚ :=
  let G := target_func discrete q_targ_list pi_targ_list vt Rn In S_next
  let Q := List.zipWith q_online.type1 S (A.map preproc)
  List.zipWith (fun g q => -(L.dloss g q)) G Q

lemma zipWith_map_self {α β γ : Type} (f : α → β → γ) (h : α → β) (l : List α) :
    List.zipWith f l (l.map h) = l.map (fun a => f a (h a)) := by
  rw [List.zipWith_map_right, List.zipWith_same]

lemma zipWith_map_both {α β : Type} (k : β → β → β) (f g : α → β) (l : List α) :
    List.zipWith k (l.map f) (l.map g) = l.map (fun a => k (f a) (g a)) := by
  rw [List.zipWith_map, List.zipWith_same]

lemma rowMin_cons (v : List ℚ) (vs : List (List ℚ)) (h : vs ≠ []) :
    rowMin (v :: vs) = List.zipWith min v (rowMin vs) := by
  cases vs with
  | nil => exact absurd rfl h
  | cons w t => rfl

lemma zipWith_min_left_comm :
    ∀ (l₁ l₂ l₃ : List ℚ),
      List.zipWith min l₁ (List.zipWith min l₂ l₃)
        = List.zipWith min l₂ (List.zipWith min l₁ l₃) := by
  intro l₁
  induction l₁ with
  | nil => intro l₂ l₃; cases l₂ <;> cases l₃ <;> simp
  | cons a t ih =>
      intro l₂ l₃
      cases l₂ with
      | nil => simp
      | cons b t₂ =>
          cases l₃ with
          | nil => simp
          | cons c t₃ => simp [ih, min_left_comm]

lemma zipWith_min_self (v : List ℚ) : List.zipWith min v v = v := by
  rw [List.zipWith_same]
  simp

lemma rowMin_perm {vs vs' : List (List ℚ)} (h : List.Perm vs vs') :
    rowMin vs = rowMin vs' := by
  induction h with
  | nil => rfl
  | cons x h ih =>
      rename_i l₁ l₂
      cases l₁ with
      | nil =>
          have : l₂ = [] := h.symm.eq_nil
          subst this; rfl
      | cons v t =>
          cases l₂ with
          | nil => exact absurd h.eq_nil (List.cons_ne_nil v t)
          | cons w u =>
              rw [rowMin_cons x (v :: t) (List.cons_ne_nil v t),
                  rowMin_cons x (w :: u) (List.cons_ne_nil w u), ih]
  | swap x y l =>
      cases l with
      | nil => simp [rowMin, List.zipWith_comm_of_comm min min_comm]
      | cons v t =>
          rw [rowMin_cons y (x :: v :: t) (List.cons_ne_nil x (v :: t)),
              rowMin_cons x (v :: t) (List.cons_ne_nil v t),
              rowMin_cons x (y :: v :: t) (List.cons_ne_nil y (v :: t)),
              rowMin_cons y (v :: t) (List.cons_ne_nil v t),
              zipWith_min_left_comm]
  | trans _ _ ih₁ ih₂ => exact ih₁.trans ih₂

lemma rowMin_map_maps {σ : Type} (l : List σ) :
    ∀ (fs : List (σ → ℚ)), fs ≠ [] →
      rowMin (fs.map (fun f => l.map f)) = l.map (fun s => listMin (fs.map (fun f => f s))) := by
  intro fs
  induction fs with
  | nil => intro h; exact absurd rfl h
  | cons f t ih =>
      intro _
      cases t with
      | nil => simp [rowMin, listMin]
      | cons f' t' =>
          rw [List.map_cons, rowMin_cons _ _ (by simp), ih (by simp), zipWith_map_both]
          apply List.map_congr_left
          intro s _
          simp [listMin]

lemma getD_map_of_lt {α β : Type} (f : α → β) (d : β) (e : α) :
    ∀ (l : List α) (k : ℕ), k < l.length → (l.map f).getD k d = f (l.getD k e) := by
  intro l
  induction l with
  | nil => intro k h; simp at h
  | cons a t ih =>
      intro k h
      cases k with
      | zero => rfl
      | succ n => simpa using ih n (by simpa using h)

lemma getD_zipWith_of_lt {α β γ : Type} (f : α → β → γ) (d : γ) (da : α) (db : β) :
    ∀ (a : List α) (b : List β) (k : ℕ), k < a.length → k < b.length →
      (List.zipWith f a b).getD k d = f (a.getD k da) (b.getD k db) := by
  intro a
  induction a with
  | nil => intro b k h; simp at h
  | cons x t ih =>
      intro b k ha hb
      cases b with
      | nil => simp at hb
      | cons y u =>
          cases k with
          | zero => rfl
          | succ n =>
              simpa using ih u n (by simpa using ha) (by simpa using hb)

lemma bootstrap_getD (vt : ValueTransform) :
    ∀ (R I M : List ℚ) (k : ℕ), k < R.length → k < I.length → k < M.length →
      (bootstrap vt R I M).getD k 0
        = vt.f (R.getD k 0 + I.getD k 0 * vt.f_inv (M.getD k 0)) := by
  intro R
  induction R with
  | nil => intro I M k h; simp at h
  | cons r rs ih =>
      intro I M k hR hI hM
      cases I with
      | nil => simp at hI
      | cons i js =>
          cases M with
          | nil => simp at hM
          | cons m ms =>
              cases k with
              | zero => rfl
              | succ n =>
                  simpa [bootstrap] using
                    ih js ms n (by simpa using hR) (by simpa using hI) (by simpa using hM)

lemma rowMin_length {n : ℕ} :
    ∀ vs : List (List ℚ), vs ≠ [] → (∀ v ∈ vs, v.length = n) → (rowMin vs).length = n := by
  intro vs
  induction vs with
  | nil => intro h; exact absurd rfl h
  | cons v t ih =>
      intro _ hall
      cases t with
      | nil => exact hall v (by simp)
      | cons w u =>
          rw [rowMin_cons v (w :: u) (List.cons_ne_nil w u)]
          have h₁ : v.length = n := hall v (by simp)
          have h₂ : (rowMin (w :: u)).length = n :=
            ih (List.cons_ne_nil w u) (fun x hx => hall x (by simp [hx]))
          simp [List.length_zipWith, h₁, h₂]

lemma sum_map_ite_one (M : ℚ) :
    ∀ row : List ℚ,
      (row.map (fun v => if v = M then (1 : ℚ) else 0)).sum
        = (row.countP (fun v => decide (v = M)) : ℚ) := by
  intro row
  induction row with
  | nil => simp
  | cons a t ih =>
      by_cases h : a = M <;>
        simp [List.countP_cons, h, ih] <;> push_cast <;> ring

lemma sum_map_ite_self (M : ℚ) :
    ∀ row : List ℚ,
      (row.map (fun v => if v = M then v else 0)).sum
        = (row.countP (fun v => decide (v = M)) : ℚ) * M := by
  intro row
  induction row with
  | nil => simp
  | cons a t ih =>
      by_cases h : a = M <;>
        simp [List.countP_cons, h, ih] <;> push_cast <;> ring

lemma sum_map_div (c : ℚ) : ∀ l : List ℚ, (l.map (fun x => x / c)).sum = l.sum / c := by
  intro l
  induction l with
  | nil => simp
  | cons a t ih => simp [ih, add_div]

lemma rowMax_mem : ∀ row : List ℚ, row ≠ [] → rowMax row ∈ row := by
  intro row
  induction row with
  | nil => intro h; exact absurd rfl h
  | cons a t ih =>
      intro _
      cases t with
      | nil => simp [rowMax]
      | cons b u =>
          have hmax : rowMax (a :: b :: u) = max a (rowMax (b :: u)) := rfl
          rcases max_choice a (rowMax (b :: u)) with h | h
      
          · rw [hmax, h]; simp
          · rw [hmax, h]
            exact List.mem_cons_of_mem a (ih (List.cons_ne_nil b u))

lemma countP_max_pos (row : List ℚ) (h : row ≠ []) :
    0 < row.countP (fun v => decide (v = rowMax row)) := by
  rw [List.countP_pos_iff]
  exact ⟨rowMax row, rowMax_mem row h, by simp⟩

lemma ind_sum_eq (row : List ℚ) :
    (row.map (fun v => if v = rowMax row then (1 : ℚ) else 0)).sum
      = (row.countP (fun v => decide (v = rowMax row)) : ℚ) :=
  sum_map_ite_one (rowMax row) row

lemma target_func_discrete_maps {σ : Type} (qs : List (QFun σ)) (pis : List (PiFun σ))
    (vt : ValueTransform) (Rn In : List ℚ) (S_next : List σ) :
    target_func true qs pis vt Rn In S_next
      = bootstrap vt Rn In (rowMin ((qs.map (fun qi => qs.map (fun qj =>
          S_next.map (fun s => qj.type1 s (a_next_row (qi.type2 s)))))).flatten)) := by
  simp [target_func, zipWith_map_self]

lemma target_func_continuous_maps {σ : Type} (qs : List (QFun σ)) (pis : List (PiFun σ))
    (vt : ValueTransform) (Rn In : List ℚ) (S_next : List σ) :
    target_func false qs pis vt Rn In S_next
      = bootstrap vt Rn In (rowMin ((pis.map (fun pii => qs.map (fun qj =>
          S_next.map (fun s => qj.type1 s (pii.mode s))))).flatten)) := by
  simp [target_func, zipWith_map_self]

lemma discrete_stack_eq {σ : Type} (qs : List (QFun σ)) (S_next : List σ) :
    (qs.map (fun qi => qs.map (fun qj =>
        S_next.map (fun s => qj.type1 s (a_next_row (qi.type2 s)))))).flatten
      = ((qs.map (fun qi => qs.map (fun qj =>
          (fun s => qj.type1 s (a_next_row (qi.type2 s)))))).flatten).map
            (fun f => S_next.map f) := by
  rw [List.map_flatten, List.map_map]
  apply congrArg List.flatten
  apply List.map_congr_left
  intro qi _
  simp only [Function.comp_apply]
  rw [List.map_map]
  apply List.map_congr_left
  intro qj _
  rfl

lemma continuous_stack_eq {σ : Type} (qs : List (QFun σ)) (pis : List (PiFun σ))
    (S_next : List σ) :
    (pis.map (fun pii => qs.map (fun qj =>
        S_next.map (fun s => qj.type1 s (pii.mode s))))).flatten
      = ((pis.map (fun pii => qs.map (fun qj =>
          (fun s => qj.type1 s (pii.mode s))))).flatten).map
            (fun f => S_next.map f) := by
  rw [List.map_flatten, List.map_map]
  apply congrArg List.flatten
  apply List.map_congr_left
  intro pii _
  simp only [Function.comp_apply]
  rw [List.map_map]
  apply List.map_congr_left
  intro qj _
  rfl

lemma pair_evals_discrete_at {σ : Type} (qs : List (QFun σ)) (s : σ) :
    ((qs.map (fun qi => qs.map (fun qj =>
        (fun s' => qj.type1 s' (a_next_row (qi.type2 s')))))).flatten).map (fun f => f s)
      = pairEvalsDiscrete qs s := by
  rw [List.map_flatten, List.map_map]
  unfold pairEvalsDiscrete
  apply congrArg List.flatten
  apply List.map_congr_left
  intro qi _
  simp only [Function.comp_apply]
  rw [List.map_map]
  apply List.map_congr_left
  intro qj _
  rfl

lemma pair_evals_continuous_at {σ : Type} (qs : List (QFun σ)) (pis : List (PiFun σ))
    (s : σ) :
    ((pis.map (fun pii => qs.map (fun qj =>
        (fun s' => qj.type1 s' (pii.mode s'))))).flatten).map (fun f => f s)
      = pairEvalsContinuous qs pis s := by
  rw [List.map_flatten, List.map_map]
  unfold pairEvalsContinuous
  apply congrArg List.flatten
  apply List.map_congr_left
  intro pii _
  simp only [Function.comp_apply]
  rw [List.map_map]
  apply List.map_congr_left
  intro qj _
  rfl

lemma flatten_map_map_ne_nil {α β γ : Type} (L : List α) (K : List β) (F : α → β → γ)
    (hL : L ≠ []) (hK : K ≠ []) :
    (L.map (fun a => K.map (fun b => F a b))).flatten ≠ [] := by
  rw [List.flatten_ne_nil_iff]
  cases L with
  | nil => exact absurd rfl hL
  | cons a t =>
      refine ⟨K.map (fun b => F a b), ?_, by simpa using hK⟩
      exact List.mem_map_of_mem _ (List.mem_cons_self a t)

lemma bootstrap_id : ∀ R I M : List ℚ, bootstrap idTransform R I M = specTarget R I M := by
  intro R
  induction R with
  | nil => intro I M; cases I <;> cases M <;> simp [bootstrap, specTarget]
  | cons r rs ih =>
      intro I M
      cases I with
      | nil => simp [bootstrap, specTarget]
      | cons i js =>
          cases M with
          | nil => simp [bootstrap, specTarget]
          | cons m ms =>
              show (r + i * m) :: bootstrap idTransform rs js ms
                  = (r + i * m) :: specTarget rs js ms
              exact congrArg (List.cons (r + i * m)) (ih js ms)

/-- Claim C1: with the identity value transform, `target_func` returns exactly
`Rn + In * min` over all ordered (selector, evaluator) pair evaluations of the
evaluator q-function at `(S_next, next-action chosen by the selector)`, row-wise per
batch element — in the discrete branch (selectors are target q-functions) and in the
continuous branch (selectors are target policies). -/
theorem claim_C1 {σ : Type} (qs : List (QFun σ)) (pis : List (PiFun σ))
    (Rn In : List ℚ) (S_next : List σ) (hq : qs ≠ []) (hpi : pis ≠ []) :
    target_func true qs pis idTransform Rn In S_next
        = specTarget Rn In (S_next.map (fun s => listMin (pairEvalsDiscrete qs s)))
      ∧ target_func false qs pis idTransform Rn In S_next
        = specTarget Rn In (S_next.map (fun s => listMin (pairEvalsContinuous qs pis s))) := by
  constructor
  · rw [target_func_discrete_maps, discrete_stack_eq,
        rowMin_map_maps S_next _ (flatten_map_map_ne_nil qs qs _ hq hq), bootstrap_id]
    congr 1
    apply List.map_congr_left
    intro s _
    exact congrArg listMin (pair_evals_discrete_at qs s)
  · rw [target_func_continuous_maps, continuous_stack_eq,
        rowMin_map_maps S_next _ (flatten_map_map_ne_nil pis qs _ hpi hq), bootstrap_id]
    congr 1
    apply List.map_congr_left
    intro s _
    exact congrArg listMin (pair_evals_continuous_at qs pis s)

/-- Witness for C1 at a concrete instance: one q-function, one policy, batch of one. -/
theorem claim_C1_witness :
    target_func true [qFromTable (fun _ : Unit => [1, 2])] [PiFun.mk (fun _ => [0])]
          idTransform [3] [(1 : ℚ) / 2] [()]
        = specTarget [3] [(1 : ℚ) / 2]
            ([()].map (fun s => listMin (pairEvalsDiscrete [qFromTable (fun _ : Unit => [1, 2])] s)))
      ∧ target_func false [qFromTable (fun _ : Unit => [1, 2])] [PiFun.mk (fun _ => [0])]
          idTransform [3] [(1 : ℚ) / 2] [()]
        = specTarget [3] [(1 : ℚ) / 2]
            ([()].map (fun s => listMin (pairEvalsContinuous
                [qFromTable (fun _ : Unit => [1, 2])] [PiFun.mk (fun _ => [0])] s))) :=
  claim_C1 [qFromTable (fun _ : Unit => [1, 2])] [PiFun.mk (fun _ => [0])]
    [3] [(1 : ℚ) / 2] [()] (List.cons_ne_nil _ _) (List.cons_ne_nil _ _)

lemma rowMin_stack_length_discrete {σ : Type} (qs : List (QFun σ)) (S_next : List σ)
    (hq : qs ≠ []) :
    (rowMin ((qs.map (fun qi => qs.map (fun qj =>
        S_next.map (fun s => qj.type1 s (a_next_row (qi.type2 s)))))).flatten)).length
      = S_next.length := by
  rw [discrete_stack_eq]
  apply rowMin_length
  · simp only [ne_eq, List.map_eq_nil_iff]
    exact flatten_map_map_ne_nil qs qs _ hq hq
  · intro v hv
    rcases List.mem_map.mp hv with ⟨f, _, rfl⟩
    simp

lemma rowMin_stack_length_continuous {σ : Type} (qs : List (QFun σ)) (pis : List (PiFun σ))
    (S_next : List σ) (hq : qs ≠ []) (hpi : pis ≠ []) :
    (rowMin ((pis.map (fun pii => qs.map (fun qj =>
        S_next.map (fun s => qj.type1 s (pii.mode s))))).flatten)).length
      = S_next.length := by
  rw [continuous_stack_eq]
  apply rowMin_length
  · simp only [ne_eq, List.map_eq_nil_iff]
    exact flatten_map_map_ne_nil pis qs _ hpi hq
  · intro v hv
    rcases List.mem_map.mp hv with ⟨f, _, rfl⟩
    simp

/-- Claim C2: on every row whose bootstrap discount factor `In` is zero (terminal
transition), `target_func` returns `f(Rn)` for that row, whatever values the target
q-functions and policies take at `S_next`. -/
theorem claim_C2 {σ : Type} (discrete : Bool) (qs : List (QFun σ)) (pis : List (PiFun σ))
    (vt : ValueTransform) (Rn In : List ℚ) (S_next : List σ) (k : ℕ)
    (hq : qs ≠ []) (hpi : pis ≠ [])
    (hkR : k < Rn.length) (hkI : k < In.length) (hkS : k < S_next.length)
    (hIn : In.getD k 0 = 0) :
    (target_func discrete qs pis vt Rn In S_next).getD k 0 = vt.f (Rn.getD k 0) := by
  cases discrete with
  | true =>
      rw [target_func_discrete_maps]
      rw [bootstrap_getD vt _ _ _ k hkR hkI
        (by rw [rowMin_stack_length_discrete qs S_next hq]; exact hkS)]
      rw [hIn, zero_mul, add_zero]
  | false =>
      rw [target_func_continuous_maps]
      rw [bootstrap_getD vt _ _ _ k hkR hkI
        (by rw [rowMin_stack_length_continuous qs pis S_next hq hpi]; exact hkS)]
      rw [hIn, zero_mul, add_zero]

/-- Witness for C2: a concrete terminal row yields `f(Rn)` even though the q-function
value at `S_next` is large. -/
theorem claim_C2_witness :
    (target_func true [qFromTable (fun _ : Unit => [100, 200]), qFromTable (fun _ => [100, 200])]
        [PiFun.mk (fun _ => [0])] ⟨fun x => x + 1, fun x => x - 1⟩ [5] [0] [()]).getD 0 0
      = (⟨fun x => x + 1, fun x => x - 1⟩ : ValueTransform).f ([(5 : ℚ)].getD 0 0) :=
  claim_C2 true [qFromTable (fun _ : Unit => [100, 200]), qFromTable (fun _ => [100, 200])]
    [PiFun.mk (fun _ => [0])] ⟨fun x => x + 1, fun x => x - 1⟩ [5] [0] [()] 0
    (List.cons_ne_nil _ _) (List.cons_ne_nil _ _) (by simp) (by simp) (by simp) (by simp)

/-- Claim C3: for every row of the per-action value matrix returned by a selector
q-function, the constructed next-action distribution assigns the same nonzero weight
`1 / (number of tied maximizers)` to every action attaining the row-wise maximum,
weight zero to every other action, and the row sums to 1. -/
theorem claim_C3 {σ : Type} (q : QFun σ) (s : σ) (h : q.type2 s ≠ []) :
    (a_next_row (q.type2 s)).sum = 1
      ∧ ∀ k : ℕ, k < (q.type2 s).length →
          ((q.type2 s).getD k 0 = rowMax (q.type2 s) →
            (a_next_row (q.type2 s)).getD k 0
                = 1 / (((q.type2 s).countP (fun v => decide (v = rowMax (q.type2 s)))) : ℚ)
              ∧ 0 < (a_next_row (q.type2 s)).getD k 0)
          ∧ ((q.type2 s).getD k 0 ≠ rowMax (q.type2 s) →
              (a_next_row (q.type2 s)).getD k 0 = 0) := by
  have hc : 0 < (q.type2 s).countP (fun v => decide (v = rowMax (q.type2 s))) :=
    countP_max_pos _ h
  have hcQ : (((q.type2 s).countP (fun v => decide (v = rowMax (q.type2 s)))) : ℚ) ≠ 0 := by
    exact_mod_cast hc.ne'
  have hgetD : ∀ k : ℕ, k < (q.type2 s).length →
      (a_next_row (q.type2 s)).getD k 0
        = (if (q.type2 s).getD k 0 = rowMax (q.type2 s) then (1 : ℚ) else 0)
            / (((q.type2 s).countP (fun v => decide (v = rowMax (q.type2 s)))) : ℚ) := by
    intro k hk
    show (((q.type2 s).map (fun v => if v = rowMax (q.type2 s) then (1 : ℚ) else 0)).map
        (fun x => x / ((q.type2 s).map
          (fun v => if v = rowMax (q.type2 s) then (1 : ℚ) else 0)).sum)).getD k 0 = _
    rw [getD_map_of_lt _ 0 0 _ k (by simpa using hk),
        getD_map_of_lt _ 0 0 _ k hk, ind_sum_eq]
  refine ⟨?_, ?_⟩
  · show (((q.type2 s).map (fun v => if v = rowMax (q.type2 s) then (1 : ℚ) else 0)).map
        (fun x => x / ((q.type2 s).map
          (fun v => if v = rowMax (q.type2 s) then (1 : ℚ) else 0)).sum)).sum = 1
    rw [sum_map_div, ind_sum_eq, div_self hcQ]
  · intro k hk
    constructor
    · intro heq
      rw [hgetD k hk, if_pos heq]
      constructor
      · rfl
      · have : (0 : ℚ) < (((q.type2 s).countP
            (fun v => decide (v = rowMax (q.type2 s)))) : ℚ) := by exact_mod_cast hc
        positivity
    · intro hne
      rw [hgetD k hk, if_neg hne, zero_div]

/-- Witness for C3 on the row `[2, 1, 2]` (a tie between actions 0 and 2). -/
theorem claim_C3_witness :
    (a_next_row ((qFromTable (fun _ : Unit => [2, 1, 2])).type2 ())).sum = 1
      ∧ (a_next_row ((qFromTable (fun _ : Unit => [2, 1, 2])).type2 ())).getD 0 0
          = 1 / ((((qFromTable (fun _ : Unit => [2, 1, 2])).type2 ()).countP
              (fun v => decide (v = rowMax ((qFromTable (fun _ : Unit => [2, 1, 2])).type2 ())))) : ℚ)
      ∧ (a_next_row ((qFromTable (fun _ : Unit => [2, 1, 2])).type2 ())).getD 1 0 = 0 := by
  have h := claim_C3 (qFromTable (fun _ : Unit => [2, 1, 2])) () (by decide)
  exact ⟨h.1, ((h.2 0 (by decide)).1 (by decide)).1, (h.2 1 (by decide)).2 (by decide)⟩

lemma sum_map_ite_self_div (M S : ℚ) :
    ∀ row : List ℚ,
      (row.map (fun v => (if v = M then v else 0) / S)).sum
        = (row.countP (fun v => decide (v = M)) : ℚ) * M / S := by
  intro row
  induction row with
  | nil => simp
  | cons a t ih =>
      by_cases h : a = M <;>
        simp [List.countP_cons, h, ih] <;> push_cast <;> ring_nf <;>
          simp [add_div, add_mul, mul_div_assoc, mul_comm]

lemma dot_a_next (row : List ℚ) (h : row ≠ []) :
    (List.zipWith (fun a b => a * b) row (a_next_row row)).sum = rowMax row := by
  have hc : 0 < row.countP (fun v => decide (v = rowMax row)) := countP_max_pos row h
  have hcQ : ((row.countP (fun v => decide (v = rowMax row))) : ℚ) ≠ 0 := by
    exact_mod_cast hc.ne'
  show (List.zipWith (fun a b => a * b) row
      ((row.map (fun v => if v = rowMax row then (1 : ℚ) else 0)).map
        (fun x => x / (row.map (fun v => if v = rowMax row then (1 : ℚ) else 0)).sum))).sum
    = rowMax row
  rw [List.map_map, zipWith_map_self]
  have hpt : ∀ v ∈ row,
      v * ((fun x => x / (row.map (fun u => if u = rowMax row then (1 : ℚ) else 0)).sum) ∘
            fun u => if u = rowMax row then (1 : ℚ) else 0) v
        = (if v = rowMax row then v else 0)
            / (row.map (fun u => if u = rowMax row then (1 : ℚ) else 0)).sum := by
    intro v _
    by_cases hv : v = rowMax row <;> simp [hv, div_eq_mul_inv]
  rw [List.map_congr_left hpt, sum_map_ite_self_div, ind_sum_eq, mul_comm, mul_div_assoc,
      div_self hcQ, mul_one]

/-- Claim C4: with a discrete action space and exactly two extensionally identical
target q-functions, `target_func` returns the single-network n-step bootstrapped
target `f(Rn + In * f_inv(q(S_next, argmax_a q(S_next, a))))`: the min over the four
identical pair evaluations is a no-op, and the evaluation at the greedy-action
distribution is the row-wise maximum value. -/
theorem claim_C4 {σ : Type} (t t' : σ → List ℚ) (pis : List (PiFun σ))
    (vt : ValueTransform) (Rn In : List ℚ) (S_next : List σ)
    (hext : ∀ s : σ, t s = t' s) (hne : ∀ s ∈ S_next, t s ≠ []) :
    target_func true [qFromTable t, qFromTable t'] pis vt Rn In S_next
      = bootstrap vt Rn In (S_next.map (fun s => rowMax (t s))) := by
  have hv : ∀ a b : σ → List ℚ, (∀ s : σ, a s = t s) → (∀ s : σ, b s = t s) →
      S_next.map (fun s => (qFromTable b).type1 s (a_next_row ((qFromTable a).type2 s)))
        = S_next.map (fun s => rowMax (t s)) := by
    intro a b ha hb
    apply List.map_congr_left
    intro s hs
    show (List.zipWith (fun x y => x * y) (b s) (a_next_row (a s))).sum = rowMax (t s)
    rw [ha s, hb s]
    exact dot_a_next (t s) (hne s hs)
  rw [target_func_discrete_maps]
  congr 1
  simp only [List.map_cons, List.map_nil, List.flatten_cons, List.flatten_nil,
    List.append_nil, List.cons_append, List.nil_append]
  rw [hv t t (fun _ => rfl) (fun _ => rfl), hv t t' (fun _ => rfl) (fun s => (hext s).symm),
      hv t' t (fun s => (hext s).symm) (fun _ => rfl),
      hv t' t' (fun s => (hext s).symm) (fun s => (hext s).symm)]
  simp [rowMin, zipWith_min_self]

/-- Witness for C4: two identical two-action tables, one transition. -/
theorem claim_C4_witness :
    target_func true [qFromTable (fun _ : Unit => [1, 2]), qFromTable (fun _ : Unit => [1, 2])]
        [] idTransform [3] [(1 : ℚ) / 2] [()]
      = bootstrap idTransform [3] [(1 : ℚ) / 2] ([()].map (fun s => rowMax [1, 2])) :=
  claim_C4 (fun _ : Unit => [1, 2]) (fun _ : Unit => [1, 2]) [] idTransform
    [3] [(1 : ℚ) / 2] [()] (fun _ => rfl) (fun s _ => List.cons_ne_nil _ _)

/-- Claim C9: batch of 4 transitions over a 2-action discrete space, two identical
target q-functions with per-action values `[1, 2]` everywhere, `Rn = [0,0,0,0]`,
`In = [0.99, 0.99, 0.99, 0.99]`, identity value transform: the target is exactly
`[1.98, 1.98, 1.98, 1.98]`. -/
theorem claim_C9 :
    target_func true
        [qFromTable (fun _ : Unit => [1, 2]), qFromTable (fun _ : Unit => [1, 2])]
        [] idTransform [0, 0, 0, 0]
        [99 / 100, 99 / 100, 99 / 100, 99 / 100] [(), (), (), ()]
      = [198 / 100, 198 / 100, 198 / 100, 198 / 100] := by
  norm_num [target_func, qFromTable, idTransform, a_next_row, rowMax, rowMin, listMin,
    bootstrap, List.zipWith, List.flatten]

/-- Claim C5: the TD-error equals the negative partial derivative of the configured
loss function with respect to its second argument, evaluated at `(G, Q)` where `G`
comes from `target_func` and `Q` is the online q-function at `(S, preprocessed A)`;
it equals `G - Q` exactly when that derivative is `Q - G` at the point. -/
theorem claim_C5 {σ : Type} (L : LossFunction) (discrete : Bool) (qs : List (QFun σ))
    (pis : List (PiFun σ)) (vt : ValueTransform) (q_online : QFun σ)
    (preproc : List ℚ → List ℚ) (S : List σ) (A : List (List ℚ)) (Rn In : List ℚ)
    (S_next : List σ) (G Qv : List ℚ)
    (hG : G = target_func discrete qs pis vt Rn In S_next)
    (hQ : Qv = List.zipWith q_online.type1 S (A.map preproc))
    (k : ℕ) (hkG : k < G.length) (hkQ : k < Qv.length) :
    (td_error_func L discrete qs pis vt q_online preproc S A Rn In S_next).getD k 0
        = -(deriv (L.loss (G.getD k 0)) (Qv.getD k 0))
      ∧ (L.dloss (G.getD k 0) (Qv.getD k 0) = Qv.getD k 0 - G.getD k 0 →
          (td_error_func L discrete qs pis vt q_online preproc S A Rn In S_next).getD k 0
            = G.getD k 0 - Qv.getD k 0) := by
  subst hG
  subst hQ
  have hstep :
      (td_error_func L discrete qs pis vt q_online preproc S A Rn In S_next).getD k 0
        = -(L.dloss ((target_func discrete qs pis vt Rn In S_next).getD k 0)
            ((List.zipWith q_online.type1 S (A.map preproc)).getD k 0)) := by
    show (List.zipWith (fun g q => -(L.dloss g q))
        (target_func discrete qs pis vt Rn In S_next)
        (List.zipWith q_online.type1 S (A.map preproc))).getD k 0 = _
    rw [getD_zipWith_of_lt _ 0 0 0 _ _ k hkG hkQ]
  have hderiv :
      deriv (L.loss ((target_func discrete qs pis vt Rn In S_next).getD k 0))
          ((List.zipWith q_online.type1 S (A.map preproc)).getD k 0)
        = L.dloss ((target_func discrete qs pis vt Rn In S_next).getD k 0)
            ((List.zipWith q_online.type1 S (A.map preproc)).getD k 0) :=
    (L.deriv_ok _ _).deriv
  refine ⟨by rw [hstep, hderiv], ?_⟩
  intro hlin
  rw [hstep, hlin, neg_sub]

/-- The squared-error loss with its derivative in the second argument, certified. -/
def squaredLoss : LossFunction where
  loss := fun g q => (q - g) ^ 2 / 2
  dloss := fun g q => q - g
  deriv_ok := by
    intro g q
    have h1 : HasDerivAt (fun x : ℚ => x - g) 1 q := (hasDerivAt_id q).sub_const g
    have h2 := h1.pow 2
    have h3 := h2.div_const 2
    convert h3 using 1
    push_cast
    ring

/-- Witness for C5: squared-error loss on a concrete one-row batch. -/
theorem claim_C5_witness :
    (td_error_func squaredLoss true
          [qFromTable (fun _ : Unit => [1, 2]), qFromTable (fun _ : Unit => [1, 2])]
          [] idTransform (qFromTable (fun _ : Unit => [5, 7])) id
          [()] [[1, 0]] [0] [1] [()]).getD 0 0
        = -(deriv (squaredLoss.loss
              ((target_func true
                  [qFromTable (fun _ : Unit => [1, 2]), qFromTable (fun _ : Unit => [1, 2])]
                  [] idTransform [0] [1] [()]).getD 0 0))
            ((List.zipWith (qFromTable (fun _ : Unit => [5, 7])).type1 [()]
                ([[1, 0]].map id)).getD 0 0))
      ∧ (squaredLoss.dloss
            ((target_func true
                [qFromTable (fun _ : Unit => [1, 2]), qFromTable (fun _ : Unit => [1, 2])]
                [] idTransform [0] [1] [()]).getD 0 0)
            ((List.zipWith (qFromTable (fun _ : Unit => [5, 7])).type1 [()]
                ([[1, 0]].map id)).getD 0 0)
          = (List.zipWith (qFromTable (fun _ : Unit => [5, 7])).type1 [()]
                ([[1, 0]].map id)).getD 0 0
            - (target_func true
                [qFromTable (fun _ : Unit => [1, 2]), qFromTable (fun _ : Unit => [1, 2])]
                [] idTransform [0] [1] [()]).getD 0 0 →
          (td_error_func squaredLoss true
              [qFromTable (fun _ : Unit => [1, 2]), qFromTable (fun _ : Unit => [1, 2])]
              [] idTransform (qFromTable (fun _ : Unit => [5, 7])) id
              [()] [[1, 0]] [0] [1] [()]).getD 0 0
            = (target_func true
                [qFromTable (fun _ : Unit => [1, 2]), qFromTable (fun _ : Unit => [1, 2])]
                [] idTransform [0] [1] [()]).getD 0 0
              - (List.zipWith (qFromTable (fun _ : Unit => [5, 7])).type1 [()]
                  ([[1, 0]].map id)).getD 0 0) :=
  claim_C5 squaredLoss true
    [qFromTable (fun _ : Unit => [1, 2]), qFromTable (fun _ : Unit => [1, 2])]
    [] idTransform (qFromTable (fun _ : Unit => [5, 7])) id
    [()] [[1, 0]] [0] [1] [()] _ _ rfl rfl 0
    (by rw [target_func_discrete_maps]; simp [bootstrap])
    (by simp)

lemma isPolicy_iff (x : PyObj) : isPolicy x = true ↔ x = PyObj.policy := by
  cases x <;> simp [isPolicy]

lemma all_isQ_of (qxs : List PyObj) (hall : ∀ x ∈ qxs, x = PyObj.qfunc) :
    qxs.all isQ = true := by
  rw [List.all_eq_true]
  intro x hx
  rw [hall x hx]
  rfl

/-- Claim C6: with a discrete action space, construction raises exactly when
`q_targ_list` has fewer than 2 entries, whatever `pi_targ_list` is. -/
theorem claim_C6 (piArg : PyArg) (qxs : List PyObj)
    (hall : ∀ x ∈ qxs, x = PyObj.qfunc) :
    exceptOk (init_checks true piArg (PyArg.pyList qxs)) = true ↔ 2 ≤ qxs.length := by
  have hQ := all_isQ_of qxs hall
  cases qxs with
  | nil => cases piArg <;> simp [init_checks, check_input_lists, check_pi, check_q, exceptOk]
  | cons a t =>
      cases t with
      | nil =>
          cases piArg <;>
            simp [init_checks, check_input_lists, check_pi, check_q, exceptOk, pyLen, hQ]
      | cons b u =>
          cases piArg <;>
            simp [init_checks, check_input_lists, check_pi, check_q, exceptOk, pyLen, hQ] <;>
            rw [if_neg (by omega)]

/-- Witness for C6: one q-function fails, two succeed. -/
theorem claim_C6_witness :
    (exceptOk (init_checks true PyArg.none (PyArg.pyList [PyObj.qfunc])) = true
        ↔ 2 ≤ ([PyObj.qfunc] : List PyObj).length)
      ∧ (exceptOk (init_checks true PyArg.none
            (PyArg.pyList [PyObj.qfunc, PyObj.qfunc])) = true
        ↔ 2 ≤ ([PyObj.qfunc, PyObj.qfunc] : List PyObj).length) :=
  ⟨claim_C6 PyArg.none [PyObj.qfunc] (by decide),
    claim_C6 PyArg.none [PyObj.qfunc, PyObj.qfunc] (by decide)⟩

/-- Claim C7: with a continuous action space (and a well-formed `q_targ_list`),
construction succeeds iff `pi_targ_list` is a nonempty list of policies whose size
product with `q_targ_list` is at least 2; it raises when `pi_targ_list` is omitted,
not a list, empty, contains a non-policy, or the product is below 2. -/
theorem claim_C7 (piArg : PyArg) (qxs : List PyObj) (hq : qxs ≠ [])
    (hall : ∀ x ∈ qxs, x = PyObj.qfunc) :
    exceptOk (init_checks false piArg (PyArg.pyList qxs)) = true
      ↔ ∃ pxs : List PyObj, piArg = PyArg.pyList pxs ∧ pxs ≠ []
          ∧ (∀ p ∈ pxs, p = PyObj.policy) ∧ 2 ≤ qxs.length * pxs.length := by
  have hQ := all_isQ_of qxs hall
  have hne : qxs.isEmpty = false := by
    cases qxs with
    | nil => exact absurd rfl hq
    | cons a t => rfl
  cases piArg with
  | none => simp [init_checks, check_input_lists, check_pi, exceptOk]
  | nonList => simp [init_checks, check_input_lists, check_pi, exceptOk]
  | pyList pxs =>
      cases pxs with
      | nil => simp [init_checks, check_input_lists, check_pi, exceptOk]
      | cons p ps =>
          by_cases hP : (p :: ps).all isPolicy = true
          · have hPall : ∀ x ∈ p :: ps, x = PyObj.policy := by
              intro x hx
              exact (isPolicy_iff x).mp (List.all_eq_true.mp hP x hx)
            have hval : init_checks false (PyArg.pyList (p :: ps)) (PyArg.pyList qxs)
                = if qxs.length * (p :: ps).length < 2 then
                    Except.error ("len(q_targ_list) times len(pi_targ_list) must be at least 2")
                  else Except.ok [] := by
              simp [init_checks, check_input_lists, check_pi, check_q, hne, hQ, hP, pyLen]
            by_cases hlen : qxs.length * (p :: ps).length < 2
            · rw [hval, if_pos hlen]
              apply iff_of_false (by simp [exceptOk])
              rintro ⟨pxs, heq, hnil, hpol, hprod⟩
              injection heq with heq'
              subst heq'
              omega
            · rw [hval, if_neg hlen]
              apply iff_of_true (by simp [exceptOk])
              exact ⟨p :: ps, rfl, List.cons_ne_nil p ps, hPall, by omega⟩
          · have hval : init_checks false (PyArg.pyList (p :: ps)) (PyArg.pyList qxs)
                = Except.error ("all pi_targ in pi_targ_list must be a coax.Policy") := by
              simp [init_checks, check_input_lists, check_pi, check_q, hne, hQ, hP, pyLen]
            rw [hval]
            apply iff_of_false (by simp [exceptOk])
            rintro ⟨pxs, heq, hnil, hpol, hprod⟩
            injection heq with heq'
            subst heq'
            apply hP
            rw [List.all_eq_true]
            intro x hx
            exact (isPolicy_iff x).mpr (hpol x hx)

/-- Witness for C7: omitted policy list fails; two policies with one q-function pass. -/
theorem claim_C7_witness :
    (exceptOk (init_checks false PyArg.none (PyArg.pyList [PyObj.qfunc])) = true
        ↔ ∃ pxs : List PyObj, PyArg.none = PyArg.pyList pxs ∧ pxs ≠ []
            ∧ (∀ p ∈ pxs, p = PyObj.policy)
            ∧ 2 ≤ ([PyObj.qfunc] : List PyObj).length * pxs.length)
      ∧ (exceptOk (init_checks false (PyArg.pyList [PyObj.policy, PyObj.policy])
            (PyArg.pyList [PyObj.qfunc])) = true
        ↔ ∃ pxs : List PyObj,
            PyArg.pyList [PyObj.policy, PyObj.policy] = PyArg.pyList pxs ∧ pxs ≠ []
            ∧ (∀ p ∈ pxs, p = PyObj.policy)
            ∧ 2 ≤ ([PyObj.qfunc] : List PyObj).length * pxs.length) :=
  ⟨claim_C7 PyArg.none [PyObj.qfunc] (by decide) (by decide),
    claim_C7 (PyArg.pyList [PyObj.policy, PyObj.policy]) [PyObj.qfunc]
      (by decide) (by decide)⟩

/-- Claim C8: supplying `pi_targ_list` with a discrete action space does not raise:
construction returns normally with the warning emitted, and the policy list has no
effect on anything `target_func` computes. -/
theorem claim_C8 {σ : Type} (pxs : List PyObj) (qxs : List PyObj)
    (hall : ∀ x ∈ qxs, x = PyObj.qfunc) (h2 : 2 ≤ qxs.length)
    (qs : List (QFun σ)) (pis pis' : List (PiFun σ)) (vt : ValueTransform)
    (Rn In : List ℚ) (S_next : List σ) :
    init_checks true (PyArg.pyList pxs) (PyArg.pyList qxs)
        = Except.ok ["pi_targ_list is ignored, because action space is discrete"]
      ∧ target_func true qs pis vt Rn In S_next
        = target_func true qs pis' vt Rn In S_next := by
  constructor
  · have hQ := all_isQ_of qxs hall
    have hne : qxs.isEmpty = false := by
      cases qxs with
      | nil => simp at h2
      | cons a t => rfl
    have hval : init_checks true (PyArg.pyList pxs) (PyArg.pyList qxs)
        = if qxs.length < 2 then Except.error ("len(q_targ_list) must be at least 2")
          else Except.ok ["pi_targ_list is ignored, because action space is discrete"] := by
      simp [init_checks, check_input_lists, check_pi, check_q, hne, hQ, pyLen]
    rw [hval, if_neg (by omega)]
  · rfl

/-- Witness for C8: a concrete discrete construction with a supplied policy list. -/
theorem claim_C8_witness :
    init_checks true (PyArg.pyList [PyObj.policy]) (PyArg.pyList [PyObj.qfunc, PyObj.qfunc])
        = Except.ok ["pi_targ_list is ignored, because action space is discrete"]
      ∧ target_func true [qFromTable (fun _ : Unit => [1, 2])] [PiFun.mk (fun _ => [0])]
          idTransform [0] [1] [()]
        = target_func true [qFromTable (fun _ : Unit => [1, 2])] [PiFun.mk (fun _ => [9])]
          idTransform [0] [1] [()] :=
  claim_C8 [PyObj.policy] [PyObj.qfunc, PyObj.qfunc] (by decide) (by decide)
    [qFromTable (fun _ : Unit => [1, 2])] [PiFun.mk (fun _ => [0])] [PiFun.mk (fun _ => [9])]
    idTransform [0] [1] [()]

/-- Claim C10: permuting `q_targ_list` (with its paired parameter/state snapshots)
leaves the discrete-branch output of `target_func` unchanged: the stacked pair
evaluations form the same multiset and the row-wise min is permutation-invariant. -/
theorem claim_C10 {σ : Type} (discrete : Bool) (qs qs' : List (QFun σ))
    (pis : List (PiFun σ)) (vt : ValueTransform) (Rn In : List ℚ) (S_next : List σ)
    (hperm : List.Perm qs qs') :
    target_func discrete qs pis vt Rn In S_next
      = target_func discrete qs' pis vt Rn In S_next := by
  cases discrete with
  | true =>
      rw [target_func_discrete_maps, target_func_discrete_maps]
      congr 1
      apply rowMin_perm
      show List.Perm
        ((qs.map (fun qi => qs.map (fun qj =>
            S_next.map (fun s => qj.type1 s (a_next_row (qi.type2 s)))))).flatten)
        ((qs'.map (fun qi => qs'.map (fun qj =>
            S_next.map (fun s => qj.type1 s (a_next_row (qi.type2 s)))))).flatten)
      have hconv : ∀ l k : List (QFun σ),
          (l.map (fun qi => k.map (fun qj =>
              S_next.map (fun s => qj.type1 s (a_next_row (qi.type2 s)))))).flatten
            = l.flatMap (fun qi => k.map (fun qj =>
                S_next.map (fun s => qj.type1 s (a_next_row (qi.type2 s))))) := by
        intro l k
        rw [List.flatMap_def]
      rw [hconv, hconv]
      refine List.Perm.trans (List.Perm.flatMap_left qs ?_) (List.Perm.flatMap_right _ hperm)
      intro qi _
      exact hperm.map _
  | false =>
      rw [target_func_continuous_maps, target_func_continuous_maps]
      congr 1
      apply rowMin_perm
      show List.Perm
        ((pis.map (fun pii => qs.map (fun qj =>
            S_next.map (fun s => qj.type1 s (pii.mode s))))).flatten)
        ((pis.map (fun pii => qs'.map (fun qj =>
            S_next.map (fun s => qj.type1 s (pii.mode s))))).flatten)
      have hconv : ∀ k : List (QFun σ),
          (pis.map (fun pii => k.map (fun qj =>
              S_next.map (fun s => qj.type1 s (pii.mode s))))).flatten
            = pis.flatMap (fun pii => k.map (fun qj =>
                S_next.map (fun s => qj.type1 s (pii.mode s)))) := by
        intro k
        rw [List.flatMap_def]
      rw [hconv, hconv]
      apply List.Perm.flatMap_left
      intro pii _
      exact hperm.map _

/-- Witness for C10: swapping two distinct q-functions, in the discrete branch and in
the continuous branch. -/
theorem claim_C10_witness :
    (target_func true [qFromTable (fun _ : Unit => [1, 2]), qFromTable (fun _ : Unit => [3, 0])]
        [] idTransform [0] [1] [()]
      = target_func true
          [qFromTable (fun _ : Unit => [3, 0]), qFromTable (fun _ : Unit => [1, 2])]
          [] idTransform [0] [1] [()])
    ∧ (target_func false
          [qFromTable (fun _ : Unit => [1, 2]), qFromTable (fun _ : Unit => [3, 0])]
          [PiFun.mk (fun _ => [1, 0])] idTransform [0] [1] [()]
      = target_func false
          [qFromTable (fun _ : Unit => [3, 0]), qFromTable (fun _ : Unit => [1, 2])]
          [PiFun.mk (fun _ => [1, 0])] idTransform [0] [1] [()]) :=
  ⟨claim_C10 true _ _ [] idTransform [0] [1] [()] (List.Perm.swap _ _ _),
    claim_C10 false _ _ [PiFun.mk (fun _ => [1, 0])] idTransform [0] [1] [()]
      (List.Perm.swap _ _ _)⟩
